import Mathlib

/-!
Verification of the monorepo's Web3Api client core: Uri redirects,
`getImplementations`, the client's resolution cache (`loadWeb3Api`),
the invoke/query orchestration (`invoke`, `query`, `makeRepeatedUnique`)
and the client constructor's handling of default redirects.

The definitions below are shallow embeddings of the TypeScript sources:
- `getImplementations` from packages/js/core (src/unnamed/part_000);
- `Web3ApiClient` members from src/packages/js/client/src/Web3ApiClient.ts;
- `resolveUri` and `getDefaultRedirects` are not among the provided source
  files; where a claim depends on them they are modelled from the spec
  (marked `Modelled from the spec:` in their doc comments).
Machine values (strings, error objects, JS objects) are modelled as
`String`, explicit error types and association lists / update functions.
-/

/-- `Uri` value: the repository's `Uri` class keyed by its canonical string
form `uri.uri`. Parsing/normalization is not among the source files; the
claims below only consume the canonical form, so a `Uri` is its canonical
string. -/
structure Uri where
  uri : String
deriving DecidableEq, Repr

/-- `Uri.equals(a, b)`: structural equality on the canonical form. -/
def Uri.equals (a b : Uri) : Bool :=
  a.uri == b.uri

/-- A plugin's manifest: `{ schema, implemented: [Uri], imported: [Uri] }`.
The `factory` field of a `PluginPackage` is omitted: no claim below consults
it (plugin instantiation is modelled abstractly where needed). -/
structure PluginManifest where
  schema : String
  implemented : List Uri
  imported : List Uri
deriving DecidableEq, Repr

/-- The `to` field of a `UriRedirect`: either a Uri string (pure alias) or a
plugin package (its manifest). In TypeScript this is the union
`string | PluginPackage`, discriminated by `typeof redirect.to === "string"`. -/
inductive UriTarget where
  | uri («to» : String)
  | plugin (manifest : PluginManifest)
deriving DecidableEq, Repr

/-- A redirect-table entry `{ from: string, to: string | PluginPackage }`. -/
structure UriRedirect where
  «from» : String
  «to» : UriTarget
deriving DecidableEq, Repr

/-- One iteration of the `for (const redirect of redirects)` loop of
`getImplementations` (src/unnamed/part_000): a plugin entry pushes
`new Uri(redirect.from)` when `implemented.findIndex((uri) => Uri.equals(uri,
abstractApi)) > -1`; a string entry pushes `new Uri(redirect.to)` when
`Uri.equals(new Uri(redirect.from), abstractApi)`. -/
def getImplementationsStep (abstractApi : Uri) (result : List Uri)
    (redirect : UriRedirect) : List Uri :=
  match redirect.to with
  | .plugin manifest =>
      if manifest.implemented.any (fun u => Uri.equals u abstractApi) then
        result ++ [Uri.mk redirect.«from»]
      else
        result
  | .uri t =>
      if Uri.equals (Uri.mk redirect.«from») abstractApi then
        result ++ [Uri.mk t]
      else
        result

/-- `getImplementations(abstractApi, redirects)` from packages/js/core
(src/unnamed/part_000): walk the table in order, starting from an empty
result, applying the loop body to each entry. -/
def getImplementations (abstractApi : Uri) (redirects : List UriRedirect) : List Uri :=
  redirects.foldl (getImplementationsStep abstractApi) []

/-- The spec's words for `getImplementations` (§4.2): a plugin entry whose
manifest `implemented` set contains the abstract Uri contributes its `from`;
a pure-alias entry contributes its `to` only when that `to` itself appears
as the `from` of a plugin binding whose `implemented` set contains the
abstract Uri; nothing else, in table order. -/
def getImplementationsSpec (abstractApi : Uri) (redirects : List UriRedirect) : List Uri :=
  redirects.filterMap fun redirect =>
    match redirect.to with
    | .plugin manifest =>
        if manifest.implemented.any (fun u => Uri.equals u abstractApi) then
          some (Uri.mk redirect.«from»)
        else
          none
    | .uri t =>
        if redirects.any (fun r2 =>
            r2.«from» == t &&
              match r2.to with
              | .plugin m2 => m2.implemented.any (fun u => Uri.equals u abstractApi)
              | .uri _ => false) then
          some (Uri.mk t)
        else
          none

/-- The behaviour the code actually has, stated as an order-preserving
filter: a plugin entry contributes its `from` when its manifest implements
the abstract Uri; an alias entry contributes its `to` exactly when the
alias's `from` equals the abstract Uri (no condition on the alias target). -/
def getImplementationsAmendedSpec (abstractApi : Uri) (redirects : List UriRedirect) :
    List Uri :=
  redirects.filterMap fun redirect =>
    match redirect.to with
    | .plugin manifest =>
        if manifest.implemented.any (fun u => Uri.equals u abstractApi) then
          some (Uri.mk redirect.«from»)
        else
          none
    | .uri t =>
        if Uri.equals (Uri.mk redirect.«from») abstractApi then
          some (Uri.mk t)
        else
          none

/-- A live Api handle. `PluginWeb3Api` / `WasmWeb3Api` construction details
are not consulted by the cache claims; a handle is identified abstractly. -/
structure Api where
  id : Nat
deriving DecidableEq, Repr

/-- `ApiCache = Map<string, Api>` (Web3ApiClient.ts line 32): total lookup
map from canonical Uri strings, `none` for an absent key. -/
def ApiCache : Type := String → Option Api

/-- The empty cache (`new Map<string, Api>()`). -/
def ApiCache.empty : ApiCache := fun _ => none

/-- `Map.set`. -/
def ApiCache.set (cache : ApiCache) (key : String) (api : Api) : ApiCache :=
  fun k => if k = key then some api else cache k

/-- `Map.get`. -/
def ApiCache.get (cache : ApiCache) (key : String) : Option Api :=
  cache key

/-- The outcome of one call to `resolveUri(uri, this, ...)` from
Web3ApiClient.loadWeb3Api: the promise rejects with an error, fulfills with
nothing (no api found), or fulfills with a handle. -/
inductive ResolveOutcome where
  | throws (e : String)
  | notFound
  | found (api : Api)
deriving DecidableEq, Repr

/-- What one `loadWeb3Api` call produces: the value returned or the error
thrown, the cache afterwards, and how many resolution attempts the call
itself started (0 on a cache hit, 1 on a miss). -/
structure LoadResult where
  result : Except String Api
  cache : ApiCache
  resolutionAttempts : Nat

/-- `Web3ApiClient.loadWeb3Api(uri)` (Web3ApiClient.ts lines 192-228), run
to completion without interleaving: read `_apiCache.get(uri.uri)`; on a hit
return the cached handle; on a miss run `resolveUri` (whose outcome for this
call is the `outcome` argument), throw `Unable to resolve Web3API at uri: …`
when it yields nothing, propagate its rejection, and otherwise
`_apiCache.set(uri.uri, api)` and return the handle. -/
def loadWeb3Api (cache : ApiCache) (uri : Uri) (outcome : ResolveOutcome) : LoadResult :=
  match cache.get uri.uri with
  | some api => { result := .ok api, cache := cache, resolutionAttempts := 0 }
  | none =>
      match outcome with
      | .throws e => { result := .error e, cache := cache, resolutionAttempts := 1 }
      | .notFound =>
          { result := .error ("Unable to resolve Web3API at uri: " ++ uri.uri),
            cache := cache, resolutionAttempts := 1 }
      | .found api =>
          { result := .ok api, cache := cache.set uri.uri api, resolutionAttempts := 1 }

/-- A sequence of completed `loadWeb3Api` calls, each with the Uri it asks
for and the `resolveUri` outcome it would see on a cache miss; returns the
final cache. -/
def loadTrace (cache : ApiCache) : List (Uri × ResolveOutcome) → ApiCache
  | [] => cache
  | (uri, outcome) :: rest => loadTrace (loadWeb3Api cache uri outcome).cache rest

/-- Program counter of one in-flight `loadWeb3Api` call in the interleaved
model: it has not yet read the cache; it has read the cache, missed, and is
awaiting its `resolveUri` promise; or it has finished with a result. -/
inductive LoadPc where
  | start
  | awaitingResolution
  | finished (result : Except String Api)
deriving Repr

/-- One concurrent `loadWeb3Api` caller: the Uri it loads, the outcome its
own `resolveUri` attempt would produce, and its program counter. -/
structure LoadTask where
  uri : Uri
  outcome : ResolveOutcome
  pc : LoadPc
deriving Repr

/-- Shared state of the interleaved model: the client's `_apiCache`, the
tasks, and the number of `resolveUri` attempts started so far. -/
structure ConcurrentLoadState where
  cache : ApiCache
  tasks : List LoadTask
  resolutionAttempts : Nat

/-- Advance task `i` by one atomic step, `await` boundaries being the only
interleaving points of the JS event loop: from `start`, the task reads the
cache synchronously and either finishes with a hit or starts its own
`resolveUri` attempt (a cache miss reaches the `await` on line 208); from
`awaitingResolution`, its `resolveUri` promise settles and the task runs the
continuation (throw, throw unresolved, or `_apiCache.set` then return). -/
def stepLoadTask (s : ConcurrentLoadState) (i : Nat) : ConcurrentLoadState :=
  match s.tasks.get? i with
  | none => s
  | some task =>
      match task.pc with
      | .finished _ => s
      | .start =>
          match s.cache.get task.uri.uri with
          | some api =>
              { s with tasks := s.tasks.set i { task with pc := .finished (.ok api) } }
          | none =>
              { s with
                tasks := s.tasks.set i { task with pc := .awaitingResolution },
                resolutionAttempts := s.resolutionAttempts + 1 }
      | .awaitingResolution =>
          match task.outcome with
          | .throws e =>
              { s with tasks := s.tasks.set i { task with pc := .finished (.error e) } }
          | .notFound =>
              { s with
                tasks := s.tasks.set i
                  { task with pc := .finished (.error
                      ("Unable to resolve Web3API at uri: " ++ task.uri.uri)) } }
          | .found api =>
              { s with
                cache := s.cache.set task.uri.uri api,
                tasks := s.tasks.set i { task with pc := .finished (.ok api) } }

/-- Run the interleaved model under an explicit schedule (the list of task
indices in the order the event loop resumes them). -/
def runLoadSchedule (s : ConcurrentLoadState) : List Nat → ConcurrentLoadState
  | [] => s
  | i :: rest => runLoadSchedule (stepLoadTask s i) rest

/-- `InvokeApiResult`: `{ data?: value }` on success, `{ error?: Error }` on
failure; an absent field is `none`. -/
structure InvokeApiResult (E V : Type) where
  data : Option V
  error : Option E
deriving DecidableEq, Repr

/-- The try-block of `Web3ApiClient.invoke` (Web3ApiClient.ts lines 169-182)
in the exception monad: `const api = await this.loadWeb3Api(uri)` followed by
`return await api.invoke(options, this)`. `load` is the outcome of the
resolution-cache lookup for this call, `apiInvoke` the behaviour of the
resolved handle's own `invoke` (plugin dispatch or sandboxed execution),
either of which may throw. -/
def invokeChain {E A R : Type} (load : Except E A) (apiInvoke : A → Except E R) :
    Except E R :=
  match load with
  | .error e => .error e
  | .ok api => apiInvoke api

/-- `Web3ApiClient.invoke` (lines 164-190): the try-block's value is
returned as is; `catch (error) { return { error: error } }` converts any
exception from the chain into the `error` field of a result value. -/
def Web3ApiClient.invoke {E A V : Type} (load : Except E A)
    (apiInvoke : A → Except E (InvokeApiResult E V)) : InvokeApiResult E V :=
  match invokeChain load apiInvoke with
  | .ok result => result
  | .error e => { data := none, error := some e }

/-- The inner recursion of `makeRepeatedUnique` (Web3ApiClient.ts lines
123-132): `counts` is the JS object `{ [key: string]: number }` read with
default 0 (`counts[name] || 0`); each name increments its count and becomes
`name` on first sight and `` `${name}_${count - 1}` `` afterwards. -/
def makeRepeatedUniqueAux (counts : String → Nat) : List String → List String
  | [] => []
  | name :: rest =>
      let count := counts name + 1
      let uniq := if count > 1 then name ++ "_" ++ toString (count - 1) else name
      uniq :: makeRepeatedUniqueAux (fun s => if s = name then count else counts s) rest

/-- `makeRepeatedUnique(names)` (Web3ApiClient.ts lines 123-132): the reduce
over `names` starting with empty counts. -/
def makeRepeatedUnique (names : List String) : List String :=
  makeRepeatedUniqueAux (fun _ => 0) names

/-- Positional statement of the suffixing policy: the `i`-th key is the
`i`-th name when no earlier operation used that name, and otherwise the name
suffixed with the number of earlier occurrences (`name_1`, `name_2`, … in
first-seen order). -/
def makeRepeatedUniqueSpec (names : List String) : List String :=
  (List.range names.length).map fun i =>
    let name := names.getD i ""
    let k := (names.take i).count name
    if k = 0 then name else name ++ "_" ++ toString k

/-- A query-level result `{ data: {name -> value}, errors: [Error] }`:
`data` is the JS object built by the assignments `data[methods[i]] =
resultDatas[i]` in order (kept here as the ordered assignment list), `errors`
is `undefined` (`none`) when no invocation failed. -/
structure QueryApiResult (E V : Type) where
  data : List (String × Option V)
  errors : Option (List E)
deriving DecidableEq, Repr

/-- Reading a key of a JS object built from an ordered assignment list: the
last assignment to the key wins; `none` when the key was never assigned. -/
def objGet {α : Type} (assignments : List (String × α)) (key : String) : Option α :=
  (assignments.reverse.find? (fun p => p.1 == key)).map (·.2)

/-- The aggregation phase of `Web3ApiClient.query` (Web3ApiClient.ts lines
109-150), applied to the awaited invocations `(method, result)`: push every
method name and every `result.data`; push `result.error` when present; make
the names unique; assign `data[methods[i]] = resultDatas[i]`; return
`errors: undefined` when no error was collected. -/
def Web3ApiClient.queryAggregate {E V : Type}
    (invocations : List (String × InvokeApiResult E V)) : QueryApiResult E V :=
  let methods := makeRepeatedUnique (invocations.map (·.1))
  let resultDatas := invocations.map (·.2.data)
  let errors := invocations.filterMap (·.2.error)
  { data := methods.zip resultDatas,
    errors := if errors.isEmpty then none else some errors }

/-- `ClientConfig { redirects: UriRedirect[] }`. -/
structure ClientConfig where
  redirects : List UriRedirect
deriving DecidableEq, Repr

/-- Modelled from the spec: `getDefaultRedirects()`
(packages/js/client/src/default-redirects.ts) is not among the provided
source files. Per §6 and the constructor's comment ("Add all default
redirects (IPFS, ETH, ENS)") it is a fixed list of built-in plugin bindings
for the content-store (IPFS), naming-service (ENS) and ledger/resolver-chain
(Ethereum) capabilities; the IPFS entry's Uris follow the IpfsPlugin source
(src/packages/client-js-plugins/ipfs/src/index.ts), the other two are
representative authorities. Only the list's identity, order and length
matter to the claims below. -/
def getDefaultRedirects : List UriRedirect :=
  [ ⟨"ens://ipfs.web3api.eth",
      .plugin ⟨"", [Uri.mk "ens://uri-resolver.core.web3api.eth",
                    Uri.mk "ens://api-resolver.core.web3api.eth"], []⟩⟩,
    ⟨"ens://ens.web3api.eth",
      .plugin ⟨"", [Uri.mk "ens://uri-resolver.core.web3api.eth"], []⟩⟩,
    ⟨"ens://ethereum.web3api.eth",
      .plugin ⟨"", [Uri.mk "ens://ledger.core.web3api.eth"], []⟩⟩ ]

/-- The `Web3ApiClient` constructor (Web3ApiClient.ts lines 36-58):
`redirects.push(...getDefaultRedirects())` appends the defaults to the
caller-supplied `config.redirects` array in place. The returned config is
the caller's own object after construction (aliased by the client's
`_config`). -/
def Web3ApiClient.construct (config : ClientConfig) : ClientConfig :=
  { config with redirects := config.redirects ++ getDefaultRedirects }

/-- `Web3ApiClient.redirects()` (lines 60-62): returns `_config.redirects`. -/
def Web3ApiClient.redirects (config : ClientConfig) : List UriRedirect :=
  config.redirects

/-- Resolution errors of the spec's taxonomy (§7) reachable in the
resolution model. -/
inductive ResolutionError where
  | resolutionCycle (uri : Uri)
  | unresolvedUri (uri : Uri)
  | outOfFuel
deriving DecidableEq, Repr

/-- Modelled from the spec: `resolveUri` (packages/js/core) is not among the
provided source files. §4.3 steps 1-2 with the §4.3/§9 cycle guard: track
the Uris already being resolved in the current call chain and fail with
`ResolutionCycle` on a repeat; otherwise scan the redirect list in order for
a matching `from`; a Uri target recurses, a plugin binding terminates
resolution; with no direct match the engine's remaining delegation steps are
outside this model and resolution surfaces the §4.3 failure `UnresolvedUri`.
The structural fuel only bounds the recursion for Lean; a chain of direct
aliases repeats a Uri before `redirects.length + 1` hops, so the guard fires
before the fuel runs out. -/
def resolveUriAux (redirects : List UriRedirect) :
    Nat → List String → String → Except ResolutionError PluginManifest
  | 0, _, _ => .error .outOfFuel
  | fuel + 1, beingResolved, uri =>
      if uri ∈ beingResolved then
        .error (.resolutionCycle (Uri.mk uri))
      else
        match redirects.find? (fun r => r.«from» == uri) with
        | some r =>
            match r.to with
            | .uri t => resolveUriAux redirects fuel (uri :: beingResolved) t
            | .plugin manifest => .ok manifest
        | none => .error (.unresolvedUri (Uri.mk uri))

/-- Modelled from the spec: resolve a target Uri against the redirect table
with an empty call chain. -/
def resolveUri (redirects : List UriRedirect) (uri : Uri) :
    Except ResolutionError PluginManifest :=
  resolveUriAux redirects (redirects.length + 1) [] uri.uri

/-! ## Theorems -/

theorem getImplementations_foldl_append (abstractApi : Uri) (redirects : List UriRedirect)
    (acc : List Uri) :
    redirects.foldl (getImplementationsStep abstractApi) acc
      = acc ++ getImplementationsAmendedSpec abstractApi redirects := by
  induction redirects generalizing acc with
  | nil => simp [getImplementationsAmendedSpec]
  | cons r rest ih =>
    rw [List.foldl_cons, ih]
    cases hto : r.to with
    | plugin manifest =>
      by_cases h : ∃ x ∈ manifest.implemented, Uri.equals x abstractApi = true
      · simp [getImplementationsStep, getImplementationsAmendedSpec, hto, h]
      · simp [getImplementationsStep, getImplementationsAmendedSpec, hto, h]
    | uri t =>
      by_cases h : Uri.equals (Uri.mk r.«from») abstractApi = true
      · simp [getImplementationsStep, getImplementationsAmendedSpec, hto, h]
      · simp [getImplementationsStep, getImplementationsAmendedSpec, hto, h]

/-- C1. Counterexample to the claim as stated: in the one-entry table
aliasing `w3://a` to `w3://b`, the alias's `to` does not appear as the
`from` of any binding implementing `w3://a`, so the spec's description
yields the empty sequence; the code returns `[w3://b]` because it only
compares the alias's `from` against the queried Uri. -/
theorem C1_getImplementations_alias_cex :
    getImplementations (Uri.mk "w3://a") [⟨"w3://a", .uri "w3://b"⟩]
      = [Uri.mk "w3://b"]
    ∧ getImplementationsSpec (Uri.mk "w3://a") [⟨"w3://a", .uri "w3://b"⟩] = []
    ∧ getImplementations (Uri.mk "w3://a") [⟨"w3://a", .uri "w3://b"⟩]
        ≠ getImplementationsSpec (Uri.mk "w3://a") [⟨"w3://a", .uri "w3://b"⟩] := by
  refine ⟨rfl, rfl, ?_⟩
  decide

/-- C1 (amended). `getImplementations` returns, in redirect-table order and
with nothing else: the `from` Uri of every plugin-binding entry whose
manifest `implemented` set contains the abstract Uri, and the `to` Uri of
every pure-alias entry whose `from` equals the abstract Uri (regardless of
what the alias's `to` is bound to); the result is empty, not an error, when
no entry matches. -/
theorem C1_getImplementations_amended (abstractApi : Uri)
    (redirects : List UriRedirect) :
    getImplementations abstractApi redirects
      = getImplementationsAmendedSpec abstractApi redirects := by
  rw [getImplementations, getImplementations_foldl_append]
  simp

/-- C2. The single-flight guarantee fails on the code: with an empty cache
and two concurrent `loadWeb3Api` calls for the same Uri `w3://a`, the
schedule that lets both callers read the cache before either resolution
settles makes the client start two `resolveUri` attempts, and the two
callers finish with the handles of their own distinct attempts rather than
one shared outcome. -/
theorem C2_single_flight_violated :
    (runLoadSchedule
        ⟨ApiCache.empty,
          [⟨Uri.mk "w3://a", .found ⟨1⟩, .start⟩,
           ⟨Uri.mk "w3://a", .found ⟨2⟩, .start⟩], 0⟩
        [0, 1, 0, 1]).resolutionAttempts = 2
    ∧ (runLoadSchedule
        ⟨ApiCache.empty,
          [⟨Uri.mk "w3://a", .found ⟨1⟩, .start⟩,
           ⟨Uri.mk "w3://a", .found ⟨2⟩, .start⟩], 0⟩
        [0, 1, 0, 1]).tasks.map
          (fun task =>
            match task.pc with
            | .finished (.ok api) => some api.id
            | _ => none)
        = [some 1, some 2] := by
  exact ⟨rfl, rfl⟩

/-- C3. `Web3ApiClient.invoke` never raises: whatever the try-block's chain
does, the method returns a plain result value; a resolution failure, a
dispatch failure or a sandbox trap — any rejection of the chain — is
returned as the `error` field, and a fulfilled chain's result is returned
as is. -/
theorem C3_invoke_never_raises {E A V : Type} (load : Except E A)
    (apiInvoke : A → Except E (InvokeApiResult E V)) :
    (∀ e, load = .error e →
        Web3ApiClient.invoke load apiInvoke = ⟨none, some e⟩)
    ∧ (∀ a e, load = .ok a → apiInvoke a = .error e →
        Web3ApiClient.invoke load apiInvoke = ⟨none, some e⟩)
    ∧ (∀ r, invokeChain load apiInvoke = .ok r →
        Web3ApiClient.invoke load apiInvoke = r)
    ∧ (∀ e, invokeChain load apiInvoke = .error e →
        Web3ApiClient.invoke load apiInvoke = ⟨none, some e⟩) := by
  refine ⟨?_, ?_, ?_, ?_⟩
  · intro e he
    simp [Web3ApiClient.invoke, invokeChain, he]
  · intro a e ha he
    simp [Web3ApiClient.invoke, invokeChain, ha, he]
  · intro r hr
    simp [Web3ApiClient.invoke, hr]
  · intro e he
    simp [Web3ApiClient.invoke, he]

/-- `makeRepeatedUniqueAux` preserves the number of names. -/
theorem makeRepeatedUniqueAux_length (names : List String) :
    ∀ counts : String → Nat,
      (makeRepeatedUniqueAux counts names).length = names.length := by
  induction names with
  | nil => intro counts; rfl
  | cons name rest ih =>
    intro counts
    simp [makeRepeatedUniqueAux, ih]

/-- `makeRepeatedUniqueAux` computed positionally: the `i`-th output is the
`i`-th name suffixed with the count the state plus the earlier occurrences
give it. -/
theorem makeRepeatedUniqueAux_eq (names : List String) :
    ∀ counts : String → Nat,
      makeRepeatedUniqueAux counts names
        = (List.range names.length).map (fun i =>
            let name := names.getD i ""
            let k := counts name + (names.take i).count name
            if k = 0 then name else name ++ "_" ++ toString k) := by
  induction names with
  | nil => intro counts; rfl
  | cons name rest ih =>
    intro counts
    rw [makeRepeatedUniqueAux, ih, List.length_cons, List.range_succ_eq_map,
      List.map_cons, List.map_map]
    refine congrArg₂ _ ?_ (List.map_congr_left ?_)
    · by_cases h0 : counts name = 0
      · simp [h0]
      · have h1 : counts name + 1 > 1 := by omega
        simp [h0, h1]
    · intro i _
      simp only [Function.comp_apply, List.getD_cons_succ, List.take_succ_cons,
        List.count_cons]
      generalize rest.getD i "" = n
      have harg :
          (if n = name then counts name + 1 else counts n)
              + List.count n (List.take i rest)
            = counts n + (List.count n (List.take i rest)
              + if name == n then 1 else 0) := by
        by_cases hc : n = name
        · subst hc
          rw [if_pos rfl, if_pos (beq_self_eq_true n)]
          omega
        · have h2 : ¬((name == n) = true) := by
            simp only [beq_iff_eq]
            exact Ne.symm hc
          rw [if_neg hc, if_neg h2]
          omega
      rw [harg]

/-- C4. Counterexample to "the mapping never silently overwrites one
operation's value with another's": operations named `[a, a_1, a]` get keys
`[a, a_1, a_1]` — the suffixed form of the third collides with the literal
name of the second — so the data object drops the second operation's value
(`some 1`) and the key `a_1` ends up holding the third's (`some 2`). -/
theorem C4_repeated_names_overwrite_cex :
    makeRepeatedUnique ["a", "a_1", "a"] = ["a", "a_1", "a_1"]
    ∧ ¬ (makeRepeatedUnique ["a", "a_1", "a"]).Nodup
    ∧ (Web3ApiClient.queryAggregate
        [("a", (⟨some 0, none⟩ : InvokeApiResult String Nat)),
         ("a_1", ⟨some 1, none⟩),
         ("a", ⟨some 2, none⟩)]).data
        = [("a", some 0), ("a_1", some 1), ("a_1", some 2)]
    ∧ objGet (Web3ApiClient.queryAggregate
        [("a", (⟨some 0, none⟩ : InvokeApiResult String Nat)),
         ("a_1", ⟨some 1, none⟩),
         ("a", ⟨some 2, none⟩)]).data "a" = some (some 0)
    ∧ objGet (Web3ApiClient.queryAggregate
        [("a", (⟨some 0, none⟩ : InvokeApiResult String Nat)),
         ("a_1", ⟨some 1, none⟩),
         ("a", ⟨some 2, none⟩)]).data "a_1" = some (some 2) := by
  decide

/-- C4 (amended). The aggregated data keys are assigned deterministically in
first-seen order by suffixing repeated names — the `i`-th key is the `i`-th
operation name when no earlier operation used it, and otherwise that name
suffixed with the number of earlier occurrences (`name_1`, `name_2`, …); in
particular operations named `[a, b, a]` produce keys `[a, b, a_1]`. The
scheme does not guarantee key distinctness when an operation's literal name
equals the suffixed form of another (see the counterexample), so such keys
can still overwrite. -/
theorem C4_makeRepeatedUnique_amended (names : List String) :
    makeRepeatedUnique names = makeRepeatedUniqueSpec names
    ∧ makeRepeatedUnique ["a", "b", "a"] = ["a", "b", "a_1"] := by
  constructor
  · rw [makeRepeatedUnique, makeRepeatedUniqueAux_eq]
    simp [makeRepeatedUniqueSpec]
  · decide

/-- C5. Per-operation failure isolation in `query`'s aggregation: the
sequence of values in the data mapping is exactly each operation's own
`data` (present for its successes, absent for its failures, unaffected by
siblings); `errors` is omitted (`none`) exactly when every invocation
succeeded; and the two-operation instance where `op1` succeeds with 42 and
`op2` fails with `"E"` yields data `op1 -> 42`, `op2 -> undefined` and
errors `["E"]`. -/
theorem C5_query_partial_failure {E V : Type}
    (invocations : List (String × InvokeApiResult E V)) :
    ((Web3ApiClient.queryAggregate invocations).data.map Prod.snd
        = invocations.map (fun p => p.2.data))
    ∧ ((Web3ApiClient.queryAggregate invocations).errors = none
        ↔ ∀ p ∈ invocations, p.2.error = none)
    ∧ (Web3ApiClient.queryAggregate
        [("op1", (⟨some 42, none⟩ : InvokeApiResult String Nat)),
         ("op2", ⟨none, some "E"⟩)]
        = ⟨[("op1", some 42), ("op2", none)], some ["E"]⟩) := by
  refine ⟨?_, ?_, by decide⟩
  · simp only [Web3ApiClient.queryAggregate]
    refine List.map_snd_zip _ _ ?_
    simp [makeRepeatedUnique, makeRepeatedUniqueAux_length]
  · simp only [Web3ApiClient.queryAggregate]
    split_ifs with h
    · simp only [List.isEmpty_iff, List.filterMap_eq_nil_iff] at h
      exact iff_of_true rfl h
    · simp only [List.isEmpty_iff, List.filterMap_eq_nil_iff] at h
      exact iff_of_false (by simp) h

/-- One completed `loadWeb3Api` call never removes or changes an existing
cache entry: the only write is `set` on a key the call just found absent. -/
theorem loadWeb3Api_preserves_entry (cache : ApiCache) (uri' : Uri)
    (outcome : ResolveOutcome) (k : String) (api : Api)
    (h : cache.get k = some api) :
    (loadWeb3Api cache uri' outcome).cache.get k = some api := by
  unfold loadWeb3Api
  cases hcases : cache.get uri'.uri with
  | some a => exact h
  | none =>
    cases outcome with
    | throws e => exact h
    | notFound => exact h
    | found a2 =>
      show (cache.set uri'.uri a2).get k = some api
      unfold ApiCache.set ApiCache.get
      by_cases hk : k = uri'.uri
      · rw [hk] at h
        exact absurd (h.symm.trans hcases) (by simp)
      · simpa [hk] using h

/-- Existing cache entries survive any sequence of completed `loadWeb3Api`
calls. -/
theorem loadTrace_preserves_entry (calls : List (Uri × ResolveOutcome)) :
    ∀ (cache : ApiCache) (k : String) (api : Api),
      cache.get k = some api → (loadTrace cache calls).get k = some api := by
  induction calls with
  | nil =>
    intro cache k api h
    exact h
  | cons c rest ih =>
    intro cache k api h
    obtain ⟨u, o⟩ := c
    exact ih _ _ _ (loadWeb3Api_preserves_entry cache u o k api h)

/-- C6. A failed resolution is not cached: when the Uri is absent from the
cache and `resolveUri` rejects (or yields nothing), `loadWeb3Api` propagates
the error — its own message for the yields-nothing case — leaves the cache
exactly as it was, and any subsequent call for the same Uri starts a fresh
resolution attempt. -/
theorem C6_resolution_failure_not_cached (cache : ApiCache) (uri : Uri)
    (h : cache.get uri.uri = none) :
    (∀ e, (loadWeb3Api cache uri (.throws e)).result = .error e
        ∧ (loadWeb3Api cache uri (.throws e)).cache = cache)
    ∧ ((loadWeb3Api cache uri .notFound).result
          = .error ("Unable to resolve Web3API at uri: " ++ uri.uri)
        ∧ (loadWeb3Api cache uri .notFound).cache = cache)
    ∧ (∀ outcome, (loadWeb3Api cache uri outcome).resolutionAttempts = 1) := by
  refine ⟨fun e => ?_, ?_, fun outcome => ?_⟩
  · simp [loadWeb3Api, h]
  · simp [loadWeb3Api, h]
  · cases outcome <;> simp [loadWeb3Api, h]

/-- C6 at a concrete input: a resolution rejection on an empty cache is
propagated and the cache stays empty. -/
theorem C6_resolution_failure_not_cached_witness :
    ((loadWeb3Api ApiCache.empty (Uri.mk "w3://a") (.throws "store unreachable")).result
        = .error "store unreachable")
    ∧ (loadWeb3Api ApiCache.empty (Uri.mk "w3://a") (.throws "store unreachable")).cache
        = ApiCache.empty
    ∧ (loadWeb3Api ApiCache.empty (Uri.mk "w3://a") .notFound).resolutionAttempts = 1 :=
  ⟨((C6_resolution_failure_not_cached ApiCache.empty (Uri.mk "w3://a") rfl).1
      "store unreachable").1,
   ((C6_resolution_failure_not_cached ApiCache.empty (Uri.mk "w3://a") rfl).1
      "store unreachable").2,
   (C6_resolution_failure_not_cached ApiCache.empty (Uri.mk "w3://a") rfl).2.2 .notFound⟩

/-- C7. Once a handle for a canonical Uri string is in the cache, every
`loadWeb3Api` for that Uri returns that very handle with no new resolution
attempt and without touching the cache, and the entry survives — same key,
same handle — any sequence of later calls (no eviction or invalidation
exists in the client). -/
theorem C7_cache_entry_persists (cache : ApiCache) (uri : Uri) (api : Api)
    (h : cache.get uri.uri = some api) :
    (∀ outcome, (loadWeb3Api cache uri outcome).result = .ok api
        ∧ (loadWeb3Api cache uri outcome).cache = cache
        ∧ (loadWeb3Api cache uri outcome).resolutionAttempts = 0)
    ∧ (∀ calls, (loadTrace cache calls).get uri.uri = some api)
    ∧ (∀ calls outcome,
        (loadWeb3Api (loadTrace cache calls) uri outcome).result = .ok api
        ∧ (loadWeb3Api (loadTrace cache calls) uri outcome).resolutionAttempts = 0) := by
  refine ⟨fun outcome => ?_,
    fun calls => loadTrace_preserves_entry calls cache _ _ h,
    fun calls outcome => ?_⟩
  · simp [loadWeb3Api, h]
  · have hp := loadTrace_preserves_entry calls cache _ _ h
    simp [loadWeb3Api, hp]

/-- C7 at a concrete input: with `w3://a` cached as handle 7, a later load
(here after one unrelated intervening call) returns handle 7 and starts no
resolution attempt. -/
theorem C7_cache_entry_persists_witness :
    ((loadWeb3Api (ApiCache.empty.set "w3://a" (Api.mk 7)) (Uri.mk "w3://a")
        (.throws "never consulted")).result = .ok (Api.mk 7))
    ∧ ((loadWeb3Api
          (loadTrace (ApiCache.empty.set "w3://a" (Api.mk 7))
            [(Uri.mk "w3://b", .found (Api.mk 9))])
          (Uri.mk "w3://a") .notFound).result = .ok (Api.mk 7)) :=
  ⟨((C7_cache_entry_persists (ApiCache.empty.set "w3://a" (Api.mk 7)) (Uri.mk "w3://a")
      (Api.mk 7) (by simp [ApiCache.set, ApiCache.get])).1 (.throws "never consulted")).1,
   ((C7_cache_entry_persists (ApiCache.empty.set "w3://a" (Api.mk 7)) (Uri.mk "w3://a")
      (Api.mk 7) (by simp [ApiCache.set, ApiCache.get])).2.2
      [(Uri.mk "w3://b", .found (Api.mk 9))] .notFound).1⟩

/-- Unfolding of one step of the resolution model at positive fuel. -/
theorem resolveUriAux_succ (redirects : List UriRedirect) (fuel : Nat)
    (beingResolved : List String) (uri : String) :
    resolveUriAux redirects (fuel + 1) beingResolved uri
      = if uri ∈ beingResolved then
          .error (.resolutionCycle (Uri.mk uri))
        else
          match redirects.find? (fun r => r.«from» == uri) with
          | some r =>
              match r.to with
              | .uri t => resolveUriAux redirects fuel (uri :: beingResolved) t
              | .plugin manifest => .ok manifest
          | none => .error (.unresolvedUri (Uri.mk uri)) := rfl

/-- C8. In the two-entry table aliasing `a` to `b` and `b` back to `a`,
resolution of `a` follows the alias chain, meets `a` again while `a` is
still being resolved in the same call chain, and fails with
`ResolutionCycle` — it neither recurses forever nor exhausts its bound. -/
theorem C8_alias_cycle_detected (a b : String) (hne : a ≠ b) :
    resolveUri [⟨a, .uri b⟩, ⟨b, .uri a⟩] (Uri.mk a)
      = .error (.resolutionCycle (Uri.mk a)) := by
  have hab : (a == b) = false := by
    simp [hne]
  calc resolveUri [⟨a, .uri b⟩, ⟨b, .uri a⟩] (Uri.mk a)
      = resolveUriAux [⟨a, .uri b⟩, ⟨b, .uri a⟩] 3 [] a := rfl
    _ = resolveUriAux [⟨a, .uri b⟩, ⟨b, .uri a⟩] 2 [a] b := by
        rw [show (3 : Nat) = 2 + 1 from rfl, resolveUriAux_succ]
        simp [List.find?_cons]
    _ = resolveUriAux [⟨a, .uri b⟩, ⟨b, .uri a⟩] 1 [b, a] a := by
        rw [show (2 : Nat) = 1 + 1 from rfl, resolveUriAux_succ]
        simp [List.find?_cons, hab, Ne.symm hne]
    _ = .error (.resolutionCycle (Uri.mk a)) := by
        rw [show (1 : Nat) = 0 + 1 from rfl, resolveUriAux_succ]
        simp

/-- C8 at a concrete input: the cycle `w3://a ↔ w3://b` fails with
`ResolutionCycle` at `w3://a`. -/
theorem C8_alias_cycle_detected_witness :
    resolveUri [⟨"w3://a", .uri "w3://b"⟩, ⟨"w3://b", .uri "w3://a"⟩]
        (Uri.mk "w3://a")
      = .error (.resolutionCycle (Uri.mk "w3://a")) :=
  C8_alias_cycle_detected "w3://a" "w3://b" (by decide)

/-- C9. Counterexample to "appended … unless an earlier explicit entry
resolving the same authority overrides them": a config that already carries
an explicit entry for the IPFS default's own authority still ends up, after
construction, with the built-in entry for that authority appended — the
constructor pushes the defaults unconditionally, so the authority appears
twice in the table. -/
theorem C9_default_redirects_cex :
    ((Web3ApiClient.construct
        ⟨[⟨"ens://ipfs.web3api.eth", .uri "w3://my/own-store"⟩]⟩).redirects.countP
        (fun r => r.«from» == "ens://ipfs.web3api.eth")) = 2
    ∧ (Web3ApiClient.construct
        ⟨[⟨"ens://ipfs.web3api.eth", .uri "w3://my/own-store"⟩]⟩).redirects.length
        = 1 + getDefaultRedirects.length := by
  decide

/-- C9 (amended). The constructor always appends the built-in default
redirects, with no override check: the redirect list observed through
`redirects()` is exactly the user-supplied entries followed by all the
defaults, so every default entry is present; an earlier user entry for the
same authority merely precedes the default in table order. -/
theorem C9_redirects_user_then_defaults (config : ClientConfig) :
    Web3ApiClient.redirects (Web3ApiClient.construct config)
      = config.redirects ++ getDefaultRedirects
    ∧ ∀ d ∈ getDefaultRedirects,
        d ∈ Web3ApiClient.redirects (Web3ApiClient.construct config) := by
  refine ⟨rfl, fun d hd => ?_⟩
  simp [Web3ApiClient.redirects, Web3ApiClient.construct, hd]

/-- C10. The constructor mutates the caller's config in place: after
construction the caller's redirects array is the old one extended by the
defaults (observably longer, never equal to the original); constructing a
second client from the same config object appends the defaults again, so
each default entry then occurs at least twice. -/
theorem C10_constructor_mutates_config (config : ClientConfig) :
    (Web3ApiClient.construct config).redirects
        = config.redirects ++ getDefaultRedirects
    ∧ (Web3ApiClient.construct config).redirects ≠ config.redirects
    ∧ (Web3ApiClient.construct (Web3ApiClient.construct config)).redirects
        = config.redirects ++ getDefaultRedirects ++ getDefaultRedirects
    ∧ ∀ d ∈ getDefaultRedirects,
        2 ≤ (Web3ApiClient.construct (Web3ApiClient.construct config)).redirects.count d := by
  refine ⟨rfl, ?_, rfl, fun d hd => ?_⟩
  · intro hcontra
    have hlen := congrArg List.length hcontra
    simp [Web3ApiClient.construct, getDefaultRedirects] at hlen
  · have hc : 1 ≤ getDefaultRedirects.count d := List.count_pos_iff.mpr hd
    calc 2 ≤ getDefaultRedirects.count d + getDefaultRedirects.count d := by omega
      _ ≤ (config.redirects.count d + getDefaultRedirects.count d)
            + getDefaultRedirects.count d := by omega
      _ = (Web3ApiClient.construct (Web3ApiClient.construct config)).redirects.count d := by
          simp [Web3ApiClient.construct, List.count_append]
          omega
